import Mathlib

/-!
Verification of the gmtry window-geometry registry (src/geometry.go).

The Go module keeps an in-memory map from window identifiers to window
geometry records, persists the map through the protobuf codec of the
repository's `pb` package, and restores it by re-applying records onto
live window handles ("connectables").

Shallow embedding conventions:
* Go `string` values are byte sequences; they are modelled as `List Nat`.
* Go `int` is modelled as `Int` (no arithmetic is performed on the
  coordinates anywhere in the module, only assignments and the explicit
  `int32(...)` casts in `Windows.Store`, which are modelled explicitly
  via `i32wrap`).
* Go maps are modelled as association lists with first-match lookup and
  replace-first insertion; map iteration order, which Go leaves
  unspecified, is the list order.
* Errors are modelled structurally: each `fmt.Errorf`/`errors.Wrap`
  wrapping in the source becomes an error-type constructor carrying the
  wrapped error, and formatted numbers become constructor fields.
* The `pb` package and the protobuf wire codec (`proto.Marshal` /
  `proto.Unmarshal`) are not part of src/. They are modelled from the
  spec's description of the persisted file format (section 6): each
  record is `{name: string, position: {x,y: int32}, size: {width,height:
  int32}, maximized: bool}` on the standard varint / length-delimited
  wire encoding, with absent submessages decoding to `none` (Go `nil`).
-/

deriving instance DecidableEq for Except

namespace Gmtry

/-! ### Byte-level protobuf wire codec

Modelled from the spec: the persisted format is the schema-based binary
encoding of `Windows { repeated Window }` with `Window { name: string,
position: Position, size: Size, maximized: bool }` and int32 coordinate
fields.  Bytes are `Nat`s; varints are little-endian base 128. -/

/-- Parse one varint from a byte list, returning the value and the rest. -/
def parseVarint : List Nat → Option (Nat × List Nat)
  | [] => none
  | b :: rest =>
    if b < 128 then some (b, rest)
    else
      match parseVarint rest with
      | none => none
      | some (v, r) => some ((b - 128) + 128 * v, r)

/-- Varint encoding worker; the fuel is an upper bound on the number of
base-128 digits (the value itself always suffices). -/
def encVarintGo : Nat → Nat → List Nat
  | 0, _ => []
  | fuel + 1, n =>
    if n < 128 then [n] else (n % 128 + 128) :: encVarintGo fuel (n / 128)

/-- Varint encoding of a natural number. -/
def encVarint (n : Nat) : List Nat := encVarintGo (n + 1) n

theorem parseVarint_encVarintGo (fuel : Nat) :
    ∀ n rest, n < fuel →
      parseVarint (encVarintGo fuel n ++ rest) = some (n, rest) := by
  induction fuel with
  | zero => intro n rest h; omega
  | succ fuel ih =>
    intro n rest h
    by_cases h128 : n < 128
    · simp [encVarintGo, h128, parseVarint]
    · have hdiv : n / 128 < fuel := by omega
      simp only [encVarintGo, if_neg h128, List.cons_append, parseVarint]
      have hge : ¬ (n % 128 + 128 < 128) := by omega
      rw [if_neg hge, ih (n / 128) rest hdiv]
      have hval : n % 128 + 128 - 128 + 128 * (n / 128) = n := by omega
      show some (n % 128 + 128 - 128 + 128 * (n / 128), rest) = some (n, rest)
      rw [hval]

theorem parseVarint_encVarint (n : Nat) (rest : List Nat) :
    parseVarint (encVarint n ++ rest) = some (n, rest) :=
  parseVarint_encVarintGo (n + 1) n rest (Nat.lt_succ_self n)

theorem encVarintGo_ne_nil (fuel n : Nat) (h : n < fuel) :
    encVarintGo fuel n ≠ [] := by
  cases fuel with
  | zero => omega
  | succ fuel =>
    by_cases h128 : n < 128 <;> simp [encVarintGo, h128]

theorem encVarint_ne_nil (n : Nat) : encVarint n ≠ [] :=
  encVarintGo_ne_nil (n + 1) n (Nat.lt_succ_self n)

theorem encVarint_length_pos (n : Nat) : 1 ≤ (encVarint n).length := by
  have := encVarint_ne_nil n
  cases h : encVarint n with
  | nil => exact absurd h this
  | cons b bs => simp

theorem take_length_append {α : Type} (xs ys : List α) :
    (xs ++ ys).take xs.length = xs := by
  induction xs with
  | nil => simp
  | cons a l ih => simp [ih]

theorem drop_length_append {α : Type} (xs ys : List α) :
    (xs ++ ys).drop xs.length = ys := by
  induction xs with
  | nil => simp
  | cons a l ih => simp [ih]

/-- Parse one length-delimited payload: a varint length followed by that
many bytes.  Fails (like the Go decoder) when the buffer is shorter than
the announced length. -/
def parseLD (bytes : List Nat) : Option (List Nat × List Nat) :=
  match parseVarint bytes with
  | none => none
  | some (len, r) =>
    if len ≤ r.length then some (r.take len, r.drop len) else none

theorem parseLD_enc (payload rest : List Nat) :
    parseLD (encVarint payload.length ++ (payload ++ rest)) =
      some (payload, rest) := by
  have hle : payload.length ≤ (payload ++ rest).length := by
    simp
  simp only [parseLD, parseVarint_encVarint]
  rw [if_pos hle, take_length_append, drop_length_append]

/-- Tag byte(s) for field number `f` with wire type `wt`. -/
def encTag (f wt : Nat) : List Nat := encVarint (f * 8 + wt)

/-- A length-delimited field: tag, varint length, payload. -/
def encLD (f : Nat) (payload : List Nat) : List Nat :=
  encTag f 2 ++ encVarint payload.length ++ payload

/-! ### int32 fields on the wire

`Windows.Store` casts the Go `int` coordinates to `int32`
(`int32(window.X)`), which wraps; the wire carries the 64-bit
two's-complement varint of that value, and the decoder reads the varint
back, truncates it to 32 bits and sign-extends (`int32` field decoding),
after which `LoadWindows` widens it back to `int` exactly. -/

/-- Go's `int32(v)` conversion: wrap an integer into `[-2^31, 2^31)`. -/
def i32wrap (v : Int) : Int :=
  (v + 2147483648) % 4294967296 - 2147483648

/-- The unsigned 64-bit varint payload of an integer value
(`uint64(int64(v))`). -/
def i64n (v : Int) : Nat := (v % 18446744073709551616).toNat

/-- Decode a varint payload as an int32 field value: truncate to 32 bits
and sign-extend. -/
def decI32 (u : Nat) : Int :=
  if u % 4294967296 < 2147483648 then ((u % 4294967296 : Nat) : Int)
  else ((u % 4294967296 : Nat) : Int) - 4294967296

theorem i32wrap_eq_self (v : Int) (h1 : -2147483648 ≤ v)
    (h2 : v < 2147483648) : i32wrap v = v := by
  unfold i32wrap; omega

theorem i32wrap_range (v : Int) :
    -2147483648 ≤ i32wrap v ∧ i32wrap v < 2147483648 := by
  unfold i32wrap; omega

theorem decI32_i64n (v : Int) (h1 : -2147483648 ≤ v)
    (h2 : v < 2147483648) : decI32 (i64n v) = v := by
  unfold decI32 i64n; omega

/-! ### pb message types (Modelled from the spec: the repository's `pb`
package with messages `Windows`, `Window`, `Position`, `Size` is not
under src/).  Message-typed fields are Go pointers, `nil` when absent
from the wire, hence `Option`. -/

structure PbPosition where
  x : Int
  y : Int
deriving DecidableEq

structure PbSize where
  width : Int
  height : Int
deriving DecidableEq

structure PbWindow where
  name : List Nat
  position : Option PbPosition
  size : Option PbSize
  maximized : Bool
deriving DecidableEq

structure PbWindows where
  windows : List PbWindow
deriving DecidableEq

/-- Decoding failure (`proto.Unmarshal` returned an error). -/
inductive DecodeError
  | malformed
deriving DecidableEq

/-! ### proto.Marshal, modelled from the spec's file format -/

def marshalPosition (p : PbPosition) : List Nat :=
  encTag 1 0 ++ encVarint (i64n p.x) ++ encTag 2 0 ++ encVarint (i64n p.y)

def marshalSize (s : PbSize) : List Nat :=
  encTag 1 0 ++ encVarint (i64n s.width) ++ encTag 2 0 ++ encVarint (i64n s.height)

def marshalWindow (w : PbWindow) : List Nat :=
  encLD 1 w.name
    ++ (match w.position with
        | none => []
        | some p => encLD 2 (marshalPosition p))
    ++ (match w.size with
        | none => []
        | some s => encLD 3 (marshalSize s))
    ++ encTag 4 0 ++ encVarint (if w.maximized then 1 else 0)

def marshalWindowList : List PbWindow → List Nat
  | [] => []
  | w :: rest => encLD 1 (marshalWindow w) ++ marshalWindowList rest

def marshalPb (m : PbWindows) : List Nat := marshalWindowList m.windows

/-! ### proto.Unmarshal, modelled from the spec's file format

Each message is parsed by a loop that consumes one field per iteration
until the buffer is empty; absent fields keep their zero value (`nil`
for submessages).  The fuel argument only guards termination; it is
initialised to more than the buffer length, and every field consumes at
least the tag byte, so it never runs out on meaningful input. -/

def parsePosField (acc : PbPosition) (bytes : List Nat) :
    Option (PbPosition × List Nat) :=
  match parseVarint bytes with
  | none => none
  | some (tag, r1) =>
    if tag = 8 then
      match parseVarint r1 with
      | none => none
      | some (v, r2) => some ({ acc with x := decI32 v }, r2)
    else if tag = 16 then
      match parseVarint r1 with
      | none => none
      | some (v, r2) => some ({ acc with y := decI32 v }, r2)
    else none

/-- Generic message-parsing loop: consume one field per iteration until
the buffer is empty.  `fuel` only guards termination. -/
def fieldLoop {σ : Type} (field : σ → List Nat → Option (σ × List Nat)) :
    Nat → σ → List Nat → Option σ
  | _, acc, [] => some acc
  | 0, _, _ :: _ => none
  | fuel + 1, acc, b :: bs =>
    match field acc (b :: bs) with
    | none => none
    | some (acc', rest) => fieldLoop field fuel acc' rest

def parsePosition (bytes : List Nat) : Option PbPosition :=
  fieldLoop parsePosField (bytes.length + 1) ⟨0, 0⟩ bytes

def parseSizeField (acc : PbSize) (bytes : List Nat) :
    Option (PbSize × List Nat) :=
  match parseVarint bytes with
  | none => none
  | some (tag, r1) =>
    if tag = 8 then
      match parseVarint r1 with
      | none => none
      | some (v, r2) => some ({ acc with width := decI32 v }, r2)
    else if tag = 16 then
      match parseVarint r1 with
      | none => none
      | some (v, r2) => some ({ acc with height := decI32 v }, r2)
    else none

def parseSize (bytes : List Nat) : Option PbSize :=
  fieldLoop parseSizeField (bytes.length + 1) ⟨0, 0⟩ bytes

def parseWinField (acc : PbWindow) (bytes : List Nat) :
    Option (PbWindow × List Nat) :=
  match parseVarint bytes with
  | none => none
  | some (tag, r1) =>
    if tag = 10 then
      match parseLD r1 with
      | none => none
      | some (payload, rest) => some ({ acc with name := payload }, rest)
    else if tag = 18 then
      match parseLD r1 with
      | none => none
      | some (payload, rest) =>
        match parsePosition payload with
        | none => none
        | some p => some ({ acc with position := some p }, rest)
    else if tag = 26 then
      match parseLD r1 with
      | none => none
      | some (payload, rest) =>
        match parseSize payload with
        | none => none
        | some s => some ({ acc with size := some s }, rest)
    else if tag = 32 then
      match parseVarint r1 with
      | none => none
      | some (v, rest) => some ({ acc with maximized := v != 0 }, rest)
    else none

def parseWindow (bytes : List Nat) : Option PbWindow :=
  fieldLoop parseWinField (bytes.length + 1) ⟨[], none, none, false⟩ bytes

def parseWinsField (acc : List PbWindow) (bytes : List Nat) :
    Option (List PbWindow × List Nat) :=
  match parseVarint bytes with
  | none => none
  | some (tag, r1) =>
    if tag = 10 then
      match parseLD r1 with
      | none => none
      | some (payload, rest) =>
        match parseWindow payload with
        | none => none
        | some w => some (acc ++ [w], rest)
    else none

/-- `proto.Unmarshal` for the `pb.Windows` message. -/
def unmarshal (bytes : List Nat) : Except DecodeError PbWindows :=
  match fieldLoop parseWinsField (bytes.length + 1) [] bytes with
  | none => .error .malformed
  | some ws => .ok ⟨ws⟩

/-! ### Round-trip of the wire codec -/

theorem fieldLoop_nil {σ : Type} (field : σ → List Nat → Option (σ × List Nat))
    (fuel : Nat) (acc : σ) : fieldLoop field fuel acc [] = some acc := by
  cases fuel <;> rfl

theorem fieldLoop_consume {σ : Type} (field : σ → List Nat → Option (σ × List Nat))
    (fuel : Nat) (acc acc' : σ) (bytes rest : List Nat)
    (hb : bytes ≠ []) (hf : field acc bytes = some (acc', rest)) :
    fieldLoop field (fuel + 1) acc bytes = fieldLoop field fuel acc' rest := by
  cases bytes with
  | nil => exact absurd rfl hb
  | cons b bs => simp [fieldLoop, hf]

theorem fieldLoop_mono {σ : Type} (field : σ → List Nat → Option (σ × List Nat))
    (fuel : Nat) :
    ∀ fuel' (acc : σ) bytes r, fuel ≤ fuel' →
      fieldLoop field fuel acc bytes = some r →
      fieldLoop field fuel' acc bytes = some r := by
  induction fuel with
  | zero =>
    intro fuel' acc bytes r _ h
    cases bytes with
    | nil => rw [fieldLoop_nil] at h ⊢; exact h
    | cons b bs => simp [fieldLoop] at h
  | succ fuel ih =>
    intro fuel' acc bytes r hle h
    cases bytes with
    | nil => rw [fieldLoop_nil] at h ⊢; exact h
    | cons b bs =>
      obtain ⟨fuel'', rfl⟩ : ∃ k, fuel' = k + 1 := ⟨fuel' - 1, by omega⟩
      simp only [fieldLoop] at h ⊢
      cases hf : field acc (b :: bs) with
      | none => rw [hf] at h; exact absurd h (by simp)
      | some pr =>
        obtain ⟨acc', rest⟩ := pr
        rw [hf] at h
        exact ih fuel'' acc' rest r (by omega) h

theorem enc_append_ne_nil (n : Nat) (rest : List Nat) :
    encVarint n ++ rest ≠ [] := by
  cases h : encVarint n with
  | nil => exact absurd h (encVarint_ne_nil n)
  | cons b bs => simp

/-- What one decode-encode pass does to a position submessage. -/
def pbRoundPos (p : PbPosition) : PbPosition :=
  ⟨decI32 (i64n p.x), decI32 (i64n p.y)⟩

/-- What one decode-encode pass does to a size submessage. -/
def pbRoundSize (s : PbSize) : PbSize :=
  ⟨decI32 (i64n s.width), decI32 (i64n s.height)⟩

/-- What one decode-encode pass does to a window record. -/
def pbRoundWindow (w : PbWindow) : PbWindow :=
  ⟨w.name, w.position.map pbRoundPos, w.size.map pbRoundSize, w.maximized⟩

theorem parsePosField_x (acc : PbPosition) (v : Nat) (rest : List Nat) :
    parsePosField acc (encVarint 8 ++ (encVarint v ++ rest)) =
      some ({ acc with x := decI32 v }, rest) := by
  simp [parsePosField, parseVarint_encVarint]

theorem parsePosField_y (acc : PbPosition) (v : Nat) (rest : List Nat) :
    parsePosField acc (encVarint 16 ++ (encVarint v ++ rest)) =
      some ({ acc with y := decI32 v }, rest) := by
  simp [parsePosField, parseVarint_encVarint]

theorem parsePosField_y_last (acc : PbPosition) (v : Nat) :
    parsePosField acc (encVarint 16 ++ encVarint v) =
      some ({ acc with y := decI32 v }, []) := by
  have h := parsePosField_y acc v []
  simpa using h

theorem marshalPosition_shape (p : PbPosition) :
    marshalPosition p =
      encVarint 8 ++ (encVarint (i64n p.x) ++
        (encVarint 16 ++ encVarint (i64n p.y))) := by
  simp [marshalPosition, encTag, List.append_assoc]

theorem parsePosition_marshal (p : PbPosition) :
    parsePosition (marshalPosition p) = some (pbRoundPos p) := by
  have h2 : fieldLoop parsePosField (1 + 1) ⟨0, 0⟩ (marshalPosition p) =
      some (pbRoundPos p) := by
    rw [marshalPosition_shape,
      fieldLoop_consume parsePosField 1 _ _ _ _
        (enc_append_ne_nil _ _) (parsePosField_x _ _ _),
      fieldLoop_consume parsePosField 0 _ _ _ _
        (enc_append_ne_nil _ _) (parsePosField_y_last _ _),
      fieldLoop_nil]
    rfl
  have hne : marshalPosition p ≠ [] := by
    rw [marshalPosition_shape]; exact enc_append_ne_nil _ _
  have hpos : 0 < (marshalPosition p).length := List.length_pos.mpr hne
  unfold parsePosition
  exact fieldLoop_mono parsePosField (1 + 1) _ _ _ _ (by omega) h2

theorem parseSizeField_width (acc : PbSize) (v : Nat) (rest : List Nat) :
    parseSizeField acc (encVarint 8 ++ (encVarint v ++ rest)) =
      some ({ acc with width := decI32 v }, rest) := by
  simp [parseSizeField, parseVarint_encVarint]

theorem parseSizeField_height (acc : PbSize) (v : Nat) (rest : List Nat) :
    parseSizeField acc (encVarint 16 ++ (encVarint v ++ rest)) =
      some ({ acc with height := decI32 v }, rest) := by
  simp [parseSizeField, parseVarint_encVarint]

theorem parseSizeField_height_last (acc : PbSize) (v : Nat) :
    parseSizeField acc (encVarint 16 ++ encVarint v) =
      some ({ acc with height := decI32 v }, []) := by
  have h := parseSizeField_height acc v []
  simpa using h

theorem marshalSize_shape (s : PbSize) :
    marshalSize s =
      encVarint 8 ++ (encVarint (i64n s.width) ++
        (encVarint 16 ++ encVarint (i64n s.height))) := by
  simp [marshalSize, encTag, List.append_assoc]

theorem parseSize_marshal (s : PbSize) :
    parseSize (marshalSize s) = some (pbRoundSize s) := by
  have h2 : fieldLoop parseSizeField (1 + 1) ⟨0, 0⟩ (marshalSize s) =
      some (pbRoundSize s) := by
    rw [marshalSize_shape,
      fieldLoop_consume parseSizeField 1 _ _ _ _
        (enc_append_ne_nil _ _) (parseSizeField_width _ _ _),
      fieldLoop_consume parseSizeField 0 _ _ _ _
        (enc_append_ne_nil _ _) (parseSizeField_height_last _ _),
      fieldLoop_nil]
    rfl
  have hne : marshalSize s ≠ [] := by
    rw [marshalSize_shape]; exact enc_append_ne_nil _ _
  have hpos : 0 < (marshalSize s).length := List.length_pos.mpr hne
  unfold parseSize
  exact fieldLoop_mono parseSizeField (1 + 1) _ _ _ _ (by omega) h2

theorem parseWinField_name (acc : PbWindow) (payload rest : List Nat) :
    parseWinField acc
        (encVarint 10 ++ (encVarint payload.length ++ (payload ++ rest))) =
      some ({ acc with name := payload }, rest) := by
  simp [parseWinField, parseVarint_encVarint, parseLD_enc]

theorem parseWinField_position (acc : PbWindow) (p : PbPosition) (rest : List Nat) :
    parseWinField acc
        (encVarint 18 ++ (encVarint (marshalPosition p).length ++
          (marshalPosition p ++ rest))) =
      some ({ acc with position := some (pbRoundPos p) }, rest) := by
  simp [parseWinField, parseVarint_encVarint, parseLD_enc, parsePosition_marshal]

theorem parseWinField_size (acc : PbWindow) (s : PbSize) (rest : List Nat) :
    parseWinField acc
        (encVarint 26 ++ (encVarint (marshalSize s).length ++
          (marshalSize s ++ rest))) =
      some ({ acc with size := some (pbRoundSize s) }, rest) := by
  simp [parseWinField, parseVarint_encVarint, parseLD_enc, parseSize_marshal]

theorem parseWinField_max (acc : PbWindow) (v : Nat) (rest : List Nat) :
    parseWinField acc (encVarint 32 ++ (encVarint v ++ rest)) =
      some ({ acc with maximized := v != 0 }, rest) := by
  simp [parseWinField, parseVarint_encVarint]

theorem parseWinField_max_last (acc : PbWindow) (v : Nat) :
    parseWinField acc (encVarint 32 ++ encVarint v) =
      some ({ acc with maximized := v != 0 }, []) := by
  have h := parseWinField_max acc v []
  simpa using h

theorem boolVarint (mx : Bool) : (((if mx then (1 : Nat) else 0)) != 0) = mx := by
  cases mx <;> rfl

theorem parseWindow_marshal (w : PbWindow) :
    parseWindow (marshalWindow w) = some (pbRoundWindow w) := by
  obtain ⟨name, pos, sz, mx⟩ := w
  cases pos with
  | none =>
    cases sz with
    | none =>
      have hshape : marshalWindow ⟨name, none, none, mx⟩ =
          encVarint 10 ++ (encVarint name.length ++ (name ++
            (encVarint 32 ++ encVarint (if mx then 1 else 0)))) := by
        simp [marshalWindow, encLD, encTag, List.append_assoc]
      have h2 : fieldLoop parseWinField (1 + 1) ⟨[], none, none, false⟩
          (marshalWindow ⟨name, none, none, mx⟩) =
          some (pbRoundWindow ⟨name, none, none, mx⟩) := by
        rw [hshape,
          fieldLoop_consume parseWinField 1 _ _ _ _
            (enc_append_ne_nil _ _) (parseWinField_name _ _ _),
          fieldLoop_consume parseWinField 0 _ _ _ _
            (enc_append_ne_nil _ _) (parseWinField_max_last _ _),
          fieldLoop_nil]
        simp [pbRoundWindow, boolVarint]
      have hlen : 1 + 1 ≤ (marshalWindow ⟨name, none, none, mx⟩).length + 1 := by
        have l1 := encVarint_length_pos 10
        rw [hshape]; simp only [List.length_append]; omega
      unfold parseWindow
      exact fieldLoop_mono parseWinField (1 + 1) _ _ _ _ hlen h2
    | some s =>
      have hshape : marshalWindow ⟨name, none, some s, mx⟩ =
          encVarint 10 ++ (encVarint name.length ++ (name ++
            (encVarint 26 ++ (encVarint (marshalSize s).length ++
              (marshalSize s ++
                (encVarint 32 ++ encVarint (if mx then 1 else 0))))))) := by
        simp [marshalWindow, encLD, encTag, List.append_assoc]
      have h2 : fieldLoop parseWinField (2 + 1) ⟨[], none, none, false⟩
          (marshalWindow ⟨name, none, some s, mx⟩) =
          some (pbRoundWindow ⟨name, none, some s, mx⟩) := by
        rw [hshape,
          fieldLoop_consume parseWinField 2 _ _ _ _
            (enc_append_ne_nil _ _) (parseWinField_name _ _ _),
          fieldLoop_consume parseWinField 1 _ _ _ _
            (enc_append_ne_nil _ _) (parseWinField_size _ _ _),
          fieldLoop_consume parseWinField 0 _ _ _ _
            (enc_append_ne_nil _ _) (parseWinField_max_last _ _),
          fieldLoop_nil]
        simp [pbRoundWindow, boolVarint]
      have hlen : 2 + 1 ≤ (marshalWindow ⟨name, none, some s, mx⟩).length + 1 := by
        have l1 := encVarint_length_pos 10
        have l2 := encVarint_length_pos 26
        rw [hshape]; simp only [List.length_append]; omega
      unfold parseWindow
      exact fieldLoop_mono parseWinField (2 + 1) _ _ _ _ hlen h2
  | some p =>
    cases sz with
    | none =>
      have hshape : marshalWindow ⟨name, some p, none, mx⟩ =
          encVarint 10 ++ (encVarint name.length ++ (name ++
            (encVarint 18 ++ (encVarint (marshalPosition p).length ++
              (marshalPosition p ++
                (encVarint 32 ++ encVarint (if mx then 1 else 0))))))) := by
        simp [marshalWindow, encLD, encTag, List.append_assoc]
      have h2 : fieldLoop parseWinField (2 + 1) ⟨[], none, none, false⟩
          (marshalWindow ⟨name, some p, none, mx⟩) =
          some (pbRoundWindow ⟨name, some p, none, mx⟩) := by
        rw [hshape,
          fieldLoop_consume parseWinField 2 _ _ _ _
            (enc_append_ne_nil _ _) (parseWinField_name _ _ _),
          fieldLoop_consume parseWinField 1 _ _ _ _
            (enc_append_ne_nil _ _) (parseWinField_position _ _ _),
          fieldLoop_consume parseWinField 0 _ _ _ _
            (enc_append_ne_nil _ _) (parseWinField_max_last _ _),
          fieldLoop_nil]
        simp [pbRoundWindow, boolVarint]
      have hlen : 2 + 1 ≤ (marshalWindow ⟨name, some p, none, mx⟩).length + 1 := by
        have l1 := encVarint_length_pos 10
        have l2 := encVarint_length_pos 18
        rw [hshape]; simp only [List.length_append]; omega
      unfold parseWindow
      exact fieldLoop_mono parseWinField (2 + 1) _ _ _ _ hlen h2
    | some s =>
      have hshape : marshalWindow ⟨name, some p, some s, mx⟩ =
          encVarint 10 ++ (encVarint name.length ++ (name ++
            (encVarint 18 ++ (encVarint (marshalPosition p).length ++
              (marshalPosition p ++
                (encVarint 26 ++ (encVarint (marshalSize s).length ++
                  (marshalSize s ++
                    (encVarint 32 ++ encVarint (if mx then 1 else 0)))))))))) := by
        simp [marshalWindow, encLD, encTag, List.append_assoc]
      have h2 : fieldLoop parseWinField (3 + 1) ⟨[], none, none, false⟩
          (marshalWindow ⟨name, some p, some s, mx⟩) =
          some (pbRoundWindow ⟨name, some p, some s, mx⟩) := by
        rw [hshape,
          fieldLoop_consume parseWinField 3 _ _ _ _
            (enc_append_ne_nil _ _) (parseWinField_name _ _ _),
          fieldLoop_consume parseWinField 2 _ _ _ _
            (enc_append_ne_nil _ _) (parseWinField_position _ _ _),
          fieldLoop_consume parseWinField 1 _ _ _ _
            (enc_append_ne_nil _ _) (parseWinField_size _ _ _),
          fieldLoop_consume parseWinField 0 _ _ _ _
            (enc_append_ne_nil _ _) (parseWinField_max_last _ _),
          fieldLoop_nil]
        simp [pbRoundWindow, boolVarint]
      have hlen : 3 + 1 ≤ (marshalWindow ⟨name, some p, some s, mx⟩).length + 1 := by
        have l1 := encVarint_length_pos 10
        have l2 := encVarint_length_pos 18
        have l3 := encVarint_length_pos 26
        rw [hshape]; simp only [List.length_append]; omega
      unfold parseWindow
      exact fieldLoop_mono parseWinField (3 + 1) _ _ _ _ hlen h2

theorem parseWinsField_window (acc : List PbWindow) (w : PbWindow) (rest : List Nat) :
    parseWinsField acc
        (encVarint 10 ++ (encVarint (marshalWindow w).length ++
          (marshalWindow w ++ rest))) =
      some (acc ++ [pbRoundWindow w], rest) := by
  simp [parseWinsField, parseVarint_encVarint, parseLD_enc, parseWindow_marshal]

theorem marshalWindowList_shape (w : PbWindow) (rest : List PbWindow) :
    marshalWindowList (w :: rest) =
      encVarint 10 ++ (encVarint (marshalWindow w).length ++
        (marshalWindow w ++ marshalWindowList rest)) := by
  simp [marshalWindowList, encLD, encTag, List.append_assoc]

theorem fieldLoop_wins (ws : List PbWindow) :
    ∀ acc, fieldLoop parseWinsField ws.length acc (marshalWindowList ws) =
      some (acc ++ ws.map pbRoundWindow) := by
  induction ws with
  | nil => intro acc; simp [marshalWindowList, fieldLoop_nil]
  | cons w rest ih =>
    intro acc
    rw [List.length_cons, marshalWindowList_shape,
      fieldLoop_consume parseWinsField rest.length _ _ _ _
        (enc_append_ne_nil _ _) (parseWinsField_window _ _ _),
      ih (acc ++ [pbRoundWindow w])]
    simp

theorem marshalWindowList_length (ws : List PbWindow) :
    ws.length ≤ (marshalWindowList ws).length := by
  induction ws with
  | nil => simp [marshalWindowList]
  | cons w rest ih =>
    rw [marshalWindowList_shape]
    have l1 := encVarint_length_pos 10
    simp only [List.length_append, List.length_cons]
    omega

/-- `proto.Unmarshal ∘ proto.Marshal` is the identity on messages, up to
truncating each coordinate field to int32. -/
theorem unmarshal_marshalPb (m : PbWindows) :
    unmarshal (marshalPb m) = .ok ⟨m.windows.map pbRoundWindow⟩ := by
  unfold unmarshal marshalPb
  have h := fieldLoop_wins m.windows []
  have hm := fieldLoop_mono parseWinsField m.windows.length
      ((marshalWindowList m.windows).length + 1) [] _ _
      (by have := marshalWindowList_length m.windows; omega) h
  simp [hm]

/-! ### Domain model (src/geometry.go)

Go's `map[ID]*Window` and `map[ID]Connectable` are modelled as
association lists with first-match lookup and replace-or-append
insertion; iteration order is the list order. -/

/-- `type ID string`; a Go string is a byte sequence. -/
abbrev ID := List Nat

/-- `type Window struct` — all data about a window. -/
structure Window where
  id : ID
  x : Int
  y : Int
  width : Int
  height : Int
  maximized : Bool
deriving DecidableEq

/-- `Window.SetPosition`: no-op while maximized. -/
def Window.setPosition (w : Window) (x y : Int) : Window :=
  if w.maximized then w else { w with x := x, y := y }

/-- `Window.SetSize`: no-op while maximized. -/
def Window.setSize (w : Window) (width height : Int) : Window :=
  if w.maximized then w else { w with width := width, height := height }

/-- `Window.SetMaximized`: sets the flag unconditionally. -/
def Window.setMaximized (w : Window) (maximized : Bool) : Window :=
  { w with maximized := maximized }

/-- The `Applyable` interface: anything window geometry can be applied to. -/
class Applyable (α : Type) where
  move : α → Int → Int → α
  resize : α → Int → Int → α
  maximize : α → α

/-- The `Observable` interface: anything window geometry can be read from.
A `Connectable` is both `Applyable` and `Observable`. -/
class Observable (α : Type) where
  getPosition : α → Int × Int
  getSize : α → Int × Int
  isMaximized : α → Bool

/-- `Window.Apply`: push the stored geometry onto a target; `Maximize`
is invoked only when the stored flag is set (there is no un-maximize). -/
def Window.apply {α : Type} [Applyable α] (w : Window) (a : α) : α :=
  let a1 := Applyable.move a w.x w.y
  let a2 := Applyable.resize a1 w.width w.height
  if w.maximized then Applyable.maximize a2 else a2

/-- First-match lookup in a Go map modelled as an association list. -/
def mapLookup {β : Type} : List (ID × β) → ID → Option β
  | [], _ => none
  | (k, v) :: rest, id => if k = id then some v else mapLookup rest id

/-- Replace-or-append insertion (`m[id] = v`). -/
def mapInsert {β : Type} : List (ID × β) → ID → β → List (ID × β)
  | [], id, v => [(id, v)]
  | (k, w) :: rest, id, v =>
    if k = id then (id, v) :: rest else (k, w) :: mapInsert rest id v

/-- `type Windows map[ID]*Window`. -/
abbrev Windows := List (ID × Window)

/-- `Windows.Get`: return the entry for `id`, inserting a zero-valued
`Window{ID: id}` first when absent.  Returns the entry and the
possibly-extended map. -/
def Windows.get (w : Windows) (id : ID) : Window × Windows :=
  match mapLookup w id with
  | some g => (g, w)
  | none =>
    let g : Window :=
      { id := id, x := 0, y := 0, width := 0, height := 0, maximized := false }
    (g, mapInsert w id g)

/-- The `pb.Windows` message `Windows.Store` builds from the map: one
record per window, `Name` from the window's ID field, coordinates cast
to int32 (`int32(window.X)` …). -/
def Windows.toPb (w : Windows) : PbWindows :=
  ⟨w.map (fun kv =>
    { name := kv.2.id,
      position := some ⟨i32wrap kv.2.x, i32wrap kv.2.y⟩,
      size := some ⟨i32wrap kv.2.width, i32wrap kv.2.height⟩,
      maximized := kv.2.maximized })⟩

/-- An `io.Writer`: `Write` returns the byte count written and an
optional error (error values modelled as numeric codes). -/
structure Writer where
  write : List Nat → Nat × Option Nat

/-- Errors of `Windows.Store`.  `proto.Marshal` cannot fail on this
message type, so the source's `cannot marshal the windows` branch is
unreachable; its constructor is kept for the error shape. -/
inductive StoreError
  | marshalError (code : Nat)
  | writeError (code : Nat)
  | shortWrite (written expected : Nat)
deriving DecidableEq

/-- `Windows.Store`: marshal the map, write the bytes, wrap a write
error, and report a short write as `could only write n of len bytes`. -/
def Windows.store (w : Windows) (writer : Writer) : Except StoreError Unit :=
  let bytes := marshalPb (Windows.toPb w)
  match writer.write bytes with
  | (_, some e) => .error (.writeError e)
  | (n, none) =>
    if n ≠ bytes.length then .error (.shortWrite n bytes.length)
    else .ok ()

/-- Outcome of `LoadWindows`: success, a decoding error, or the nil
pointer dereference that `pbWindow.Position.X` / `pbWindow.Size.Width`
performs when the submessage is absent from the payload. -/
inductive LoadResult
  | ok (w : Windows)
  | err (e : DecodeError)
  | nilDeref
deriving DecidableEq

/-- The record loop of `LoadWindows`: `result[window.ID] = &window`. -/
def loadWindowsGo : List PbWindow → Windows → LoadResult
  | [], acc => .ok acc
  | pw :: rest, acc =>
    match pw.position, pw.size with
    | some pos, some sz =>
      let window : Window :=
        { id := pw.name, x := pos.x, y := pos.y,
          width := sz.width, height := sz.height, maximized := pw.maximized }
      loadWindowsGo rest (mapInsert acc window.id window)
    | _, _ => .nilDeref

/-- `LoadWindows`: unmarshal the buffer and rebuild the map, keyed by
each record's name. -/
def loadWindows (buffer : List Nat) : LoadResult :=
  match unmarshal buffer with
  | .error e => .err e
  | .ok pbWindows => loadWindowsGo pbWindows.windows []

/-- `type Geometry struct`. -/
structure Geometry (α : Type) where
  filename : List Nat
  connectables : List (ID × α)
  windows : Windows
deriving DecidableEq

/-- `NewGeometry`. -/
def NewGeometry (α : Type) (filename : List Nat) : Geometry α :=
  { filename := filename, connectables := [], windows := [] }

/-- `Geometry.Add`: apply the existing record onto the handle when the
id is known, otherwise seed a record from the handle's current geometry;
in both cases register the handle.  Returns the new registry state and
the handle's state after the call. -/
def Geometry.add {α : Type} [Applyable α] [Observable α]
    (g : Geometry α) (id : ID) (connectable : α) : Geometry α × α :=
  match mapLookup g.windows id with
  | some window =>
    let c' := Window.apply window connectable
    ({ g with connectables := mapInsert g.connectables id c' }, c')
  | none =>
    let w0 : Window :=
      { id := id, x := 0, y := 0, width := 0, height := 0, maximized := false }
    let p := Observable.getPosition connectable
    let w1 := w0.setPosition p.1 p.2
    let s := Observable.getSize connectable
    let w2 := w1.setSize s.1 s.2
    let w3 := w2.setMaximized (Observable.isMaximized connectable)
    ({ g with windows := mapInsert g.windows id w3,
              connectables := mapInsert g.connectables id connectable },
     connectable)

/-- `Geometry.Get`: delegate to `Windows.Get`. -/
def Geometry.get {α : Type} (g : Geometry α) (id : ID) : Window × Geometry α :=
  let r := Windows.get g.windows id
  (r.1, { g with windows := r.2 })

/-- Errors of `Geometry.Store`: the two `fmt.Errorf` wrappings. -/
inductive GStoreError
  | cannotOpen (code : Nat)
  | cannotStore (e : StoreError)
deriving DecidableEq

/-- `Geometry.Store`: open the file (outcome supplied by the
environment), then `Windows.Store` into it, wrapping either failure. -/
def Geometry.storeOp {α : Type} (g : Geometry α)
    (openResult : Except Nat Writer) : Except GStoreError Unit :=
  match openResult with
  | .error e => .error (.cannotOpen e)
  | .ok f =>
    match Windows.store g.windows f with
    | .error e => .error (.cannotStore e)
    | .ok _ => .ok ()

/-- Errors of `Geometry.Restore`: the two `fmt.Errorf` wrappings. -/
inductive RestoreError
  | cannotOpen (code : Nat)
  | cannotLoad (e : DecodeError)
deriving DecidableEq

/-- Outcome of `Geometry.Restore`; the registry state is carried on the
error case to express that a failed restore leaves it as it was. -/
inductive RestoreResult (α : Type)
  | ok (g : Geometry α)
  | err (e : RestoreError) (g : Geometry α)
  | nilDeref
deriving DecidableEq

/-- The merge loop of `Geometry.Restore`: store each loaded record and
re-apply it onto the registered handle for that id, if any. -/
def Geometry.restoreLoop {α : Type} [Applyable α] :
    Geometry α → List (ID × Window) → Geometry α
  | g, [] => g
  | g, (id, window) :: rest =>
    let g1 := { g with windows := mapInsert g.windows id window }
    let g2 :=
      match mapLookup g1.connectables id with
      | none => g1
      | some c =>
        { g1 with
            connectables := mapInsert g1.connectables id (Window.apply window c) }
    Geometry.restoreLoop g2 rest

/-- `Geometry.Restore`: open the file (content supplied by the
environment), `LoadWindows` it, and merge on success. -/
def Geometry.restore {α : Type} [Applyable α] (g : Geometry α)
    (file : Except Nat (List Nat)) : RestoreResult α :=
  match file with
  | .error e => .err (.cannotOpen e) g
  | .ok buffer =>
    match loadWindows buffer with
    | .err e => .err (.cannotLoad e) g
    | .nilDeref => .nilDeref
    | .ok loaded => .ok (Geometry.restoreLoop g loaded)

/-- The `testConnectable` of geometry_test.go: a handle whose state is a
`Window` value; `Move`/`Resize`/`Maximize` update it unconditionally. -/
structure TestConnectable where
  window : Window
deriving DecidableEq

instance : Applyable TestConnectable where
  move c x y := ⟨{ c.window with x := x, y := y }⟩
  resize c width height := ⟨{ c.window with width := width, height := height }⟩
  maximize c := ⟨{ c.window with maximized := true }⟩

instance : Observable TestConnectable where
  getPosition c := (c.window.x, c.window.y)
  getSize c := (c.window.width, c.window.height)
  isMaximized c := c.window.maximized

/-! ### Association-map lemmas -/

theorem mapLookup_mapInsert_self {β : Type} (m : List (ID × β)) (id : ID) (v : β) :
    mapLookup (mapInsert m id v) id = some v := by
  induction m with
  | nil => simp [mapInsert, mapLookup]
  | cons kv rest ih =>
    obtain ⟨k, w⟩ := kv
    by_cases hk : k = id
    · simp [mapInsert, hk, mapLookup]
    · simp [mapInsert, hk, mapLookup, ih]

theorem mapLookup_mapInsert_ne {β : Type} (m : List (ID × β)) (id k : ID) (v : β)
    (h : k ≠ id) : mapLookup (mapInsert m id v) k = mapLookup m k := by
  have hik : id ≠ k := fun he => h he.symm
  induction m with
  | nil => simp [mapInsert, mapLookup, hik]
  | cons kv rest ih =>
    obtain ⟨k', w⟩ := kv
    by_cases hk : k' = id
    · subst hk
      simp [mapInsert, mapLookup, hik]
    · simp [mapInsert, hk, mapLookup, ih]

theorem mapInsert_eq_append {β : Type} (m : List (ID × β)) (id : ID) (v : β)
    (h : ∀ kv ∈ m, kv.1 ≠ id) : mapInsert m id v = m ++ [(id, v)] := by
  induction m with
  | nil => rfl
  | cons kv rest ih =>
    obtain ⟨k, w⟩ := kv
    have hk : k ≠ id := h (k, w) (by simp)
    simp only [mapInsert, if_neg hk, List.cons_append]
    rw [ih (fun kv hm => h kv (by simp [hm]))]

theorem mem_keys_mapInsert {β : Type} (m : List (ID × β)) (id a : ID) (v : β) :
    a ∈ (mapInsert m id v).map Prod.fst ↔ a ∈ m.map Prod.fst ∨ a = id := by
  induction m with
  | nil => simp [mapInsert]
  | cons kv rest ih =>
    obtain ⟨k, w⟩ := kv
    by_cases hk : k = id
    · subst hk
      simp [mapInsert]
      tauto
    · simp [mapInsert, hk, ih]
      tauto

theorem nodupKeys_mapInsert {β : Type} (m : List (ID × β)) (id : ID) (v : β)
    (h : (m.map Prod.fst).Nodup) : ((mapInsert m id v).map Prod.fst).Nodup := by
  induction m with
  | nil => simp [mapInsert]
  | cons kv rest ih =>
    obtain ⟨k, w⟩ := kv
    simp only [List.map_cons, List.nodup_cons] at h
    by_cases hk : k = id
    · subst hk
      simpa [mapInsert] using h
    · simp only [mapInsert, if_neg hk, List.map_cons, List.nodup_cons]
      refine ⟨?_, ih h.2⟩
      rw [mem_keys_mapInsert]
      rintro (hin | he)
      · exact h.1 hin
      · exact hk he

/-- The key/ID invariant: every entry of the windows map is stored under
the ID recorded in its `Window` value. -/
def WindowsWF (w : Windows) : Prop := ∀ kv ∈ w, kv.1 = kv.2.id

instance (w : Windows) : Decidable (WindowsWF w) := by
  unfold WindowsWF
  infer_instance

theorem WindowsWF_mapInsert (m : Windows) (k : ID) (v : Window)
    (hm : WindowsWF m) (hv : k = v.id) : WindowsWF (mapInsert m k v) := by
  induction m with
  | nil => simpa [mapInsert, WindowsWF]
  | cons kv rest ih =>
    obtain ⟨k', w⟩ := kv
    have hrest : WindowsWF rest := fun p hp => hm p (by simp [hp])
    by_cases hk : k' = k
    · intro p hp
      simp only [mapInsert, if_pos hk] at hp
      rcases List.mem_cons.mp hp with h1 | h2
      · subst h1; exact hv
      · exact hrest p h2
    · intro p hp
      simp only [mapInsert, if_neg hk] at hp
      rcases List.mem_cons.mp hp with h1 | h2
      · subst h1; exact hm (k', w) (by simp)
      · exact ih hrest p h2

theorem loadGo_WF :
    ∀ (records : List PbWindow) (acc : Windows) (w : Windows),
      WindowsWF acc → loadWindowsGo records acc = .ok w → WindowsWF w := by
  intro records
  induction records with
  | nil =>
    intro acc w ha h
    simp only [loadWindowsGo, LoadResult.ok.injEq] at h
    subst h; exact ha
  | cons r rest ih =>
    intro acc w ha h
    simp only [loadWindowsGo] at h
    cases hp : r.position with
    | none => rw [hp] at h; simp at h
    | some pos =>
      cases hs : r.size with
      | none => rw [hp, hs] at h; simp at h
      | some sz =>
        rw [hp, hs] at h
        exact ih
          (mapInsert acc r.name
            ⟨r.name, pos.x, pos.y, sz.width, sz.height, r.maximized⟩) w
          (WindowsWF_mapInsert acc r.name
            ⟨r.name, pos.x, pos.y, sz.width, sz.height, r.maximized⟩ ha rfl) h

theorem restoreLoop_windows_WF {α : Type} [Applyable α] :
    ∀ (loaded : List (ID × Window)) (g : Geometry α),
      WindowsWF g.windows → (∀ kv ∈ loaded, kv.1 = kv.2.id) →
      WindowsWF (Geometry.restoreLoop g loaded).windows := by
  intro loaded
  induction loaded with
  | nil => intro g hg _; exact hg
  | cons kv rest ih =>
    intro g hg hl
    obtain ⟨id, window⟩ := kv
    have hid : id = window.id := hl (id, window) (by simp)
    have hwin : WindowsWF (mapInsert g.windows id window) :=
      WindowsWF_mapInsert _ _ _ hg hid
    have htail : ∀ kv ∈ rest, kv.1 = kv.2.id := fun p hp => hl p (by simp [hp])
    simp only [Geometry.restoreLoop]
    cases hc : mapLookup g.connectables id with
    | none => exact ih _ hwin htail
    | some c => exact ih _ hwin htail

/-- Applying stored geometry onto a `testConnectable` sets its rectangle
and ORs the stored maximized flag into the handle's own flag (`Apply`
never un-maximizes). -/
theorem apply_testConnectable (w : Window) (c : TestConnectable) :
    Window.apply w c =
      ⟨{ id := c.window.id, x := w.x, y := w.y, width := w.width,
         height := w.height,
         maximized := w.maximized || c.window.maximized }⟩ := by
  unfold Window.apply
  cases hmx : w.maximized <;> rfl

/-- The window `Geometry.Add` seeds for an unseen id: the setters run
before `SetMaximized`, so the freeze does not interfere. -/
theorem seed_window (id : ID) (px py sw sh : Int) (mx : Bool) :
    ((({ id := id, x := 0, y := 0, width := 0, height := 0,
          maximized := false } : Window).setPosition px py).setSize sw sh).setMaximized
        mx =
      { id := id, x := px, y := py, width := sw, height := sh, maximized := mx } := by
  simp [Window.setPosition, Window.setSize, Window.setMaximized]

theorem add_fresh {α : Type} [Applyable α] [Observable α]
    (g : Geometry α) (id : ID) (c : α) (h : mapLookup g.windows id = none) :
    Geometry.add g id c =
      ({ g with
          windows := mapInsert g.windows id
            { id := id,
              x := (Observable.getPosition c).1, y := (Observable.getPosition c).2,
              width := (Observable.getSize c).1, height := (Observable.getSize c).2,
              maximized := Observable.isMaximized c },
          connectables := mapInsert g.connectables id c }, c) := by
  unfold Geometry.add
  rw [h]
  simp [Window.setPosition, Window.setSize, Window.setMaximized]

theorem add_existing {α : Type} [Applyable α] [Observable α]
    (g : Geometry α) (id : ID) (c : α) (win : Window)
    (h : mapLookup g.windows id = some win) :
    Geometry.add g id c =
      ({ g with connectables := mapInsert g.connectables id (Window.apply win c) },
       Window.apply win c) := by
  unfold Geometry.add
  rw [h]

theorem restore_errFile {α : Type} [Applyable α] (g : Geometry α) (e : Nat) :
    Geometry.restore g (.error e) = .err (.cannotOpen e) g := rfl

theorem restore_okFile {α : Type} [Applyable α] (g : Geometry α)
    (buffer : List Nat) :
    Geometry.restore g (.ok buffer) =
      (match loadWindows buffer with
       | .err e => .err (.cannotLoad e) g
       | .nilDeref => .nilDeref
       | .ok loaded => .ok (Geometry.restoreLoop g loaded)) := rfl

theorem loadWindows_WF (buffer : List Nat) (w : Windows)
    (h : loadWindows buffer = .ok w) : WindowsWF w := by
  unfold loadWindows at h
  cases hu : unmarshal buffer with
  | error e => rw [hu] at h; simp at h
  | ok msg =>
    rw [hu] at h
    exact loadGo_WF msg.windows [] w (fun kv hkv => absurd hkv (List.not_mem_nil _)) h

/-! ### Round-trip at the registry level -/

/-- An integer representable as int32; such coordinates survive the
`int32(...)` casts of `Windows.Store` unchanged. -/
def inI32 (v : Int) : Prop := -2147483648 ≤ v ∧ v < 2147483648

instance (v : Int) : Decidable (inI32 v) := by
  unfold inI32; infer_instance

/-- All four coordinates of a window are int32-representable. -/
def WindowInRange (w : Window) : Prop :=
  inI32 w.x ∧ inI32 w.y ∧ inI32 w.width ∧ inI32 w.height

instance (w : Window) : Decidable (WindowInRange w) := by
  unfold WindowInRange; infer_instance

theorem decRound (v : Int) (h1 : -2147483648 ≤ v) (h2 : v < 2147483648) :
    decI32 (i64n (i32wrap v)) = v := by
  rw [i32wrap_eq_self v h1 h2]
  exact decI32_i64n v h1 h2

theorem loadGo_rebuild :
    ∀ (w : Windows) (acc : Windows),
      WindowsWF w → (∀ kv ∈ w, WindowInRange kv.2) →
      ((acc ++ w).map Prod.fst).Nodup →
      loadWindowsGo ((Windows.toPb w).windows.map pbRoundWindow) acc =
        .ok (acc ++ w) := by
  intro w
  induction w with
  | nil => intro acc _ _ _; simp [Windows.toPb, loadWindowsGo]
  | cons kv rest ih =>
    intro acc hwf hr hnd
    obtain ⟨k, win⟩ := kv
    have hid : k = win.id := hwf (k, win) (by simp)
    have hrange : WindowInRange win := hr (k, win) (by simp)
    obtain ⟨hx, hy, hw, hh⟩ := hrange
    have hfresh : ∀ kv' ∈ acc, kv'.1 ≠ k := by
      intro kv' hmem he
      have hkin : k ∈ acc.map Prod.fst := List.mem_map.mpr ⟨kv', hmem, he⟩
      rw [List.map_append] at hnd
      have hd := List.disjoint_of_nodup_append hnd
      exact hd hkin (by simp)
    have hins : mapInsert acc k win = acc ++ [(k, win)] :=
      mapInsert_eq_append acc k win hfresh
    have hnd' : (((acc ++ [(k, win)]) ++ rest).map Prod.fst).Nodup := by
      have : (acc ++ [(k, win)]) ++ rest = acc ++ (k, win) :: rest := by simp
      rw [this]; exact hnd
    have hwf' : WindowsWF rest := fun p hp => hwf p (by simp [hp])
    have hr' : ∀ kv' ∈ rest, WindowInRange kv'.2 := fun p hp => hr p (by simp [hp])
    have hrec := ih (acc ++ [(k, win)]) hwf' hr' hnd'
    subst hid
    have hhead : pbRoundWindow
        { name := win.id,
          position := some ⟨i32wrap win.x, i32wrap win.y⟩,
          size := some ⟨i32wrap win.width, i32wrap win.height⟩,
          maximized := win.maximized } =
        { name := win.id,
          position := some ⟨win.x, win.y⟩,
          size := some ⟨win.width, win.height⟩,
          maximized := win.maximized } := by
      simp only [pbRoundWindow, pbRoundPos, pbRoundSize, Option.map_some']
      rw [decRound _ hx.1 hx.2, decRound _ hy.1 hy.2,
        decRound _ hw.1 hw.2, decRound _ hh.1 hh.2]
    simp only [Windows.toPb, List.map_cons]
    rw [hhead]
    simp only [loadWindowsGo]
    rw [hins]
    simp only [Windows.toPb] at hrec
    rw [List.map_map] at hrec
    simpa using hrec

/-- The record-to-window conversion `LoadWindows` performs on a record
whose position and size submessages are present. -/
def recWindow (r : PbWindow) : Window :=
  { id := r.name,
    x := (r.position.getD ⟨0, 0⟩).x, y := (r.position.getD ⟨0, 0⟩).y,
    width := (r.size.getD ⟨0, 0⟩).width, height := (r.size.getD ⟨0, 0⟩).height,
    maximized := r.maximized }

theorem loadGo_complete :
    ∀ (records : List PbWindow) (acc : Windows),
      (∀ r ∈ records, r.position.isSome ∧ r.size.isSome) →
      loadWindowsGo records acc =
        .ok (records.foldl (fun a r => mapInsert a r.name (recWindow r)) acc) := by
  intro records
  induction records with
  | nil => intro acc _; simp [loadWindowsGo]
  | cons r rest ih =>
    intro acc hc
    obtain ⟨hp, hs⟩ := hc r (by simp)
    obtain ⟨pos, hpos⟩ := Option.isSome_iff_exists.mp hp
    obtain ⟨sz, hsz⟩ := Option.isSome_iff_exists.mp hs
    have hrw : recWindow r =
        { id := r.name, x := pos.x, y := pos.y,
          width := sz.width, height := sz.height, maximized := r.maximized } := by
      simp [recWindow, hpos, hsz]
    simp only [loadWindowsGo, hpos, hsz, List.foldl_cons]
    rw [← hrw, ih (mapInsert acc r.name (recWindow r))
      (fun r' hr' => hc r' (by simp [hr']))]

theorem foldl_mapInsert_lookup :
    ∀ (records : List PbWindow) (acc : Windows) (name : ID),
      mapLookup
          (records.foldl (fun a r => mapInsert a r.name (recWindow r)) acc) name =
        (((records.filter (fun r => r.name == name)).getLast?.map recWindow).or
          (mapLookup acc name)) := by
  intro records
  induction records with
  | nil => intro acc name; simp
  | cons r rest ih =>
    intro acc name
    by_cases hn : r.name = name
    · rw [List.foldl_cons, ih]
      have hfe : (r :: rest).filter (fun r => r.name == name) =
          r :: rest.filter (fun r => r.name == name) := by
        simp [List.filter_cons, hn]
      rw [hfe]
      cases hfr : rest.filter (fun r => r.name == name) with
      | nil =>
        subst hn
        simp [mapLookup_mapInsert_self]
      | cons b t =>
        rw [List.getLast?_cons_cons]
        rw [List.getLast?_cons]
        simp
    · rw [List.foldl_cons, ih]
      have hfe : (r :: rest).filter (fun r => r.name == name) =
          rest.filter (fun r => r.name == name) := by
        simp [List.filter_cons, hn]
      rw [hfe, mapLookup_mapInsert_ne acc r.name name (recWindow r)
        (fun he => hn he.symm)]

theorem foldl_mapInsert_nodupKeys :
    ∀ (records : List PbWindow) (acc : Windows),
      (acc.map Prod.fst).Nodup →
      (((records.foldl (fun a r => mapInsert a r.name (recWindow r)) acc).map
          Prod.fst)).Nodup := by
  intro records
  induction records with
  | nil => intro acc h; simpa
  | cons r rest ih =>
    intro acc h
    rw [List.foldl_cons]
    exact ih _ (nodupKeys_mapInsert acc r.name (recWindow r) h)

/-! ### The claims -/

/-- C1, counterexample: the round-trip law fails for *arbitrary* integer
coordinates.  The registry `[("a", x = 2^31)]` stores and reloads with
`x = -2^31`, because `Windows.Store` casts each coordinate with
`int32(...)`; looking up id "a" after the round trip does not give a
record equal in all fields to the original. -/
theorem C1_counterexample :
    loadWindows (marshalPb (Windows.toPb
        [([97], ⟨[97], 2147483648, 0, 0, 0, false⟩)])) =
      .ok [([97], ⟨[97], -2147483648, 0, 0, 0, false⟩)] ∧
    mapLookup [([97], (⟨[97], -2147483648, 0, 0, 0, false⟩ : Window))] [97] ≠
      mapLookup [([97], (⟨[97], 2147483648, 0, 0, 0, false⟩ : Window))] [97] :=
  ⟨by decide, by decide⟩

/-- C1, amended: for every registry state whose keys are distinct and
match each record's ID field, and whose coordinates are all
int32-representable, `Windows.Store` followed by `LoadWindows` yields
exactly the original map (hence, for every WindowID, a record equal in
all fields). -/
theorem C1_roundtrip_int32 (w : Windows)
    (hwf : WindowsWF w) (hnd : (w.map Prod.fst).Nodup)
    (hr : ∀ kv ∈ w, WindowInRange kv.2) :
    loadWindows (marshalPb (Windows.toPb w)) = .ok w := by
  unfold loadWindows
  rw [unmarshal_marshalPb]
  have h := loadGo_rebuild w [] hwf hr (by simpa using hnd)
  simpa using h

/-- Witness for C1: the spec's concrete scenario — "main" at
(1,2,3,4) maximized and "dialog" at (10,20,300,400) — satisfies the
hypotheses and round-trips exactly. -/
theorem C1_roundtrip_int32_witness :
    WindowsWF
        [([109, 97, 105, 110], ⟨[109, 97, 105, 110], 1, 2, 3, 4, true⟩),
         ([100, 105, 97, 108, 111, 103],
          ⟨[100, 105, 97, 108, 111, 103], 10, 20, 300, 400, false⟩)] ∧
    loadWindows (marshalPb (Windows.toPb
        [([109, 97, 105, 110], ⟨[109, 97, 105, 110], 1, 2, 3, 4, true⟩),
         ([100, 105, 97, 108, 111, 103],
          ⟨[100, 105, 97, 108, 111, 103], 10, 20, 300, 400, false⟩)])) =
      .ok
        [([109, 97, 105, 110], ⟨[109, 97, 105, 110], 1, 2, 3, 4, true⟩),
         ([100, 105, 97, 108, 111, 103],
          ⟨[100, 105, 97, 108, 111, 103], 10, 20, 300, 400, false⟩)] :=
  ⟨by decide, C1_roundtrip_int32 _ (by decide) (by decide) (by decide)⟩

/-- C2: while `maximized` is true, `SetPosition` and `SetSize` leave the
window unchanged; after `SetMaximized(false)` they update the fields. -/
theorem C2_maximize_freeze (w : Window) (x2 y2 w2 h2 : Int)
    (hmax : w.maximized = true) :
    w.setPosition x2 y2 = w ∧ w.setSize w2 h2 = w ∧
    (w.setMaximized false).setPosition x2 y2 =
      { w with x := x2, y := y2, maximized := false } ∧
    (w.setMaximized false).setSize w2 h2 =
      { w with width := w2, height := h2, maximized := false } := by
  refine ⟨?_, ?_, ?_, ?_⟩ <;>
    simp [Window.setPosition, Window.setSize, Window.setMaximized, hmax]

/-- Witness for C2 at a concrete maximized window. -/
theorem C2_maximize_freeze_witness :
    (⟨[], 0, 0, 0, 0, true⟩ : Window).maximized = true ∧
    ((⟨[], 0, 0, 0, 0, true⟩ : Window).setPosition 1 2 = ⟨[], 0, 0, 0, 0, true⟩ ∧
     (⟨[], 0, 0, 0, 0, true⟩ : Window).setSize 3 4 = ⟨[], 0, 0, 0, 0, true⟩ ∧
     ((⟨[], 0, 0, 0, 0, true⟩ : Window).setMaximized false).setPosition 1 2 =
       ⟨[], 1, 2, 0, 0, false⟩ ∧
     ((⟨[], 0, 0, 0, 0, true⟩ : Window).setMaximized false).setSize 3 4 =
       ⟨[], 0, 0, 3, 4, false⟩) :=
  ⟨by decide, C2_maximize_freeze ⟨[], 0, 0, 0, 0, true⟩ 1 2 3 4 (by decide)⟩

/-- C3, counterexample: Add-again does not give handle2 the stored
maximized flag.  After `Add` of a non-maximized handle1 the stored
record has `maximized = false`, but a handle2 that starts maximized
stays maximized after the second `Add`, because `Apply` never
un-maximizes. -/
theorem C3_counterexample :
    mapLookup (((NewGeometry TestConnectable []).add [99]
        ⟨⟨[1], 10, 20, 100, 200, false⟩⟩).1).windows [99] =
      some ⟨[99], 10, 20, 100, 200, false⟩ ∧
    ((((NewGeometry TestConnectable []).add [99]
        ⟨⟨[1], 10, 20, 100, 200, false⟩⟩).1.add [99]
        ⟨⟨[2], 0, 0, 0, 0, true⟩⟩).2).window.maximized = true :=
  ⟨by decide, by decide⟩

/-- C3, amended: `Add(id, handle1)` then `Add(id, handle2)` on a fresh
id gives handle2 the position and size stored from handle1; its
maximized flag becomes the OR of the stored flag and handle2's own prior
flag (`Apply` maximizes but never un-maximizes); and the registered
handle reference for id is replaced by handle2's new state. -/
theorem C3_add_again (g : Geometry TestConnectable) (id : ID)
    (c1 c2 : TestConnectable) (h : mapLookup g.windows id = none) :
    mapLookup ((g.add id c1).1).windows id =
      some ⟨id, c1.window.x, c1.window.y, c1.window.width, c1.window.height,
            c1.window.maximized⟩ ∧
    ((g.add id c1).1.add id c2).2 =
      ⟨⟨c2.window.id, c1.window.x, c1.window.y, c1.window.width,
        c1.window.height, c1.window.maximized || c2.window.maximized⟩⟩ ∧
    mapLookup (((g.add id c1).1.add id c2).1).connectables id =
      some (((g.add id c1).1.add id c2).2) := by
  have hw1 : mapLookup ((g.add id c1).1).windows id =
      some ⟨id, c1.window.x, c1.window.y, c1.window.width, c1.window.height,
            c1.window.maximized⟩ := by
    rw [add_fresh g id c1 h]
    exact mapLookup_mapInsert_self _ _ _
  have h2 := add_existing ((g.add id c1).1) id c2 _ hw1
  refine ⟨hw1, ?_, ?_⟩
  · rw [h2, apply_testConnectable]
  · rw [h2]
    exact mapLookup_mapInsert_self _ _ _

/-- Witness for C3 at concrete handles: the stored rectangle lands on
handle2, whose own maximized flag survives. -/
theorem C3_add_again_witness :
    mapLookup ((NewGeometry TestConnectable []) : Geometry TestConnectable).windows
        [99] = none ∧
    (mapLookup (((NewGeometry TestConnectable []).add [99]
        ⟨⟨[1], 10, 20, 100, 200, false⟩⟩).1).windows [99] =
      some ⟨[99], 10, 20, 100, 200, false⟩ ∧
    (((NewGeometry TestConnectable []).add [99]
        ⟨⟨[1], 10, 20, 100, 200, false⟩⟩).1.add [99]
        ⟨⟨[2], 0, 0, 0, 0, true⟩⟩).2 =
      ⟨⟨[2], 10, 20, 100, 200, true⟩⟩ ∧
    mapLookup ((((NewGeometry TestConnectable []).add [99]
        ⟨⟨[1], 10, 20, 100, 200, false⟩⟩).1.add [99]
        ⟨⟨[2], 0, 0, 0, 0, true⟩⟩).1).connectables [99] =
      some ((((NewGeometry TestConnectable []).add [99]
        ⟨⟨[1], 10, 20, 100, 200, false⟩⟩).1.add [99]
        ⟨⟨[2], 0, 0, 0, 0, true⟩⟩).2)) :=
  ⟨by decide, C3_add_again (NewGeometry TestConnectable []) [99]
    ⟨⟨[1], 10, 20, 100, 200, false⟩⟩ ⟨⟨[2], 0, 0, 0, 0, true⟩⟩ (by decide)⟩

/-- C4: `Add` on an unseen id stores a record whose fields are exactly
the handle's observed position, size and maximized flag, with its ID
field set to id, and registers the handle (whose state the first `Add`
leaves untouched). -/
theorem C4_add_seeds {α : Type} [Applyable α] [Observable α]
    (g : Geometry α) (id : ID) (c : α) (h : mapLookup g.windows id = none) :
    mapLookup ((g.add id c).1).windows id =
      some ⟨id, (Observable.getPosition c).1, (Observable.getPosition c).2,
            (Observable.getSize c).1, (Observable.getSize c).2,
            Observable.isMaximized c⟩ ∧
    mapLookup ((g.add id c).1).connectables id = some c ∧
    (g.add id c).2 = c := by
  rw [add_fresh g id c h]
  exact ⟨mapLookup_mapInsert_self _ _ _, mapLookup_mapInsert_self _ _ _, rfl⟩

/-- Witness for C4 at a concrete handle. -/
theorem C4_add_seeds_witness :
    mapLookup ((NewGeometry TestConnectable []) : Geometry TestConnectable).windows
        [99] = none ∧
    (mapLookup (((NewGeometry TestConnectable []).add [99]
        ⟨⟨[1], 10, 20, 100, 200, true⟩⟩).1).windows [99] =
      some ⟨[99], 10, 20, 100, 200, true⟩ ∧
    mapLookup (((NewGeometry TestConnectable []).add [99]
        ⟨⟨[1], 10, 20, 100, 200, true⟩⟩).1).connectables [99] =
      some ⟨⟨[1], 10, 20, 100, 200, true⟩⟩ ∧
    ((NewGeometry TestConnectable []).add [99]
        ⟨⟨[1], 10, 20, 100, 200, true⟩⟩).2 = ⟨⟨[1], 10, 20, 100, 200, true⟩⟩) :=
  ⟨by decide, C4_add_seeds (NewGeometry TestConnectable []) [99]
    ⟨⟨[1], 10, 20, 100, 200, true⟩⟩ (by decide)⟩

/-- C5: `Restore` with a payload `proto.Unmarshal` rejects returns the
`Cannot load window geometry` wrapping of the decode error and hands
back the registry exactly as it was — no decoded record is applied. -/
theorem C5_restore_decode_failure {α : Type} [Applyable α]
    (g : Geometry α) (buffer : List Nat) (e : DecodeError)
    (h : unmarshal buffer = .error e) :
    Geometry.restore g (.ok buffer) = .err (.cannotLoad e) g := by
  have hlw : loadWindows buffer = .err e := by
    unfold loadWindows
    rw [h]
  rw [restore_okFile, hlw]

/-- Witness for C5: a registry with one pre-existing entry is untouched
by a restore from the truncated payload `[8]`. -/
theorem C5_restore_decode_failure_witness :
    unmarshal [8] = .error .malformed ∧
    Geometry.restore
        (⟨[], [], [([5], ⟨[5], 1, 2, 3, 4, false⟩)]⟩ : Geometry TestConnectable)
        (.ok [8]) =
      .err (.cannotLoad .malformed)
        ⟨[], [], [([5], ⟨[5], 1, 2, 3, 4, false⟩)]⟩ :=
  ⟨by decide,
   C5_restore_decode_failure
     (⟨[], [], [([5], ⟨[5], 1, 2, 3, 4, false⟩)]⟩ : Geometry TestConnectable)
     [8] .malformed (by decide)⟩

/-- C6: `Get` on an id absent from the windows map returns the
zero-valued window with its ID field set to id, inserts that entry, and
a second `Get` returns the same entry without further change; `Get` is a
total function. -/
theorem C6_get_default {α : Type} (g : Geometry α) (id : ID)
    (h : mapLookup g.windows id = none) :
    (g.get id).1 = ⟨id, 0, 0, 0, 0, false⟩ ∧
    mapLookup ((g.get id).2).windows id = some ⟨id, 0, 0, 0, 0, false⟩ ∧
    ((g.get id).2.get id).1 = ⟨id, 0, 0, 0, 0, false⟩ ∧
    ((g.get id).2.get id).2 = (g.get id).2 := by
  have hself := mapLookup_mapInsert_self g.windows id
    (⟨id, 0, 0, 0, 0, false⟩ : Window)
  refine ⟨?_, ?_, ?_, ?_⟩ <;>
    simp [Geometry.get, Windows.get, h, hself]

/-- Witness for C6 on an empty registry. -/
theorem C6_get_default_witness :
    mapLookup ((NewGeometry Unit []) : Geometry Unit).windows [7] = none ∧
    (((NewGeometry Unit []).get [7]).1 = ⟨[7], 0, 0, 0, 0, false⟩ ∧
     mapLookup (((NewGeometry Unit []).get [7]).2).windows [7] =
       some ⟨[7], 0, 0, 0, 0, false⟩ ∧
     (((NewGeometry Unit []).get [7]).2.get [7]).1 = ⟨[7], 0, 0, 0, 0, false⟩ ∧
     (((NewGeometry Unit []).get [7]).2.get [7]).2 =
       ((NewGeometry Unit []).get [7]).2) :=
  ⟨by decide, C6_get_default (NewGeometry Unit []) [7] (by decide)⟩

/-- C7, counterexample: the payload
`[10,11,10,1,97,18,4,8,1,16,2,32,0]` is decodable — it encodes a window
record named "a" with a position but no size submessage — yet
`LoadWindows` hits the nil `Size` pointer instead of reconstructing a
geometry for the record's name, so the claim does not hold of *every*
decodable payload. -/
theorem C7_counterexample :
    unmarshal [10, 11, 10, 1, 97, 18, 4, 8, 1, 16, 2, 32, 0] =
      .ok ⟨[⟨[97], some ⟨1, 2⟩, none, false⟩]⟩ ∧
    loadWindows [10, 11, 10, 1, 97, 18, 4, 8, 1, 16, 2, 32, 0] = .nilDeref :=
  ⟨by decide, by decide⟩

/-- C7, amended: for every decodable payload whose records all carry
both submessages, `LoadWindows` reconstructs exactly one window per
distinct record name (the key set has no duplicates), keyed by that
name, and a duplicated name gets the last record in payload order. -/
theorem C7_load_last_wins (buffer : List Nat) (msg : PbWindows)
    (h : unmarshal buffer = .ok msg)
    (hc : ∀ r ∈ msg.windows, r.position.isSome ∧ r.size.isSome) :
    ∃ w : Windows,
      loadWindows buffer = .ok w ∧
      (w.map Prod.fst).Nodup ∧
      ∀ name : ID, mapLookup w name =
        ((msg.windows.filter (fun r => r.name == name)).getLast?.map recWindow) := by
  refine ⟨msg.windows.foldl (fun a r => mapInsert a r.name (recWindow r)) [],
    ?_, ?_, ?_⟩
  · unfold loadWindows
    rw [h]
    exact loadGo_complete msg.windows [] hc
  · exact foldl_mapInsert_nodupKeys msg.windows [] (by simp)
  · intro name
    rw [foldl_mapInsert_lookup]
    simp [mapLookup]

/-- Witness for C7: a payload with two records both named "a"; the
second record's geometry is the one that survives. -/
theorem C7_load_last_wins_witness :
    unmarshal
        ([10, 17, 10, 1, 97, 18, 4, 8, 1, 16, 2, 26, 4, 8, 3, 16, 4, 32, 0] ++
         [10, 17, 10, 1, 97, 18, 4, 8, 5, 16, 6, 26, 4, 8, 7, 16, 8, 32, 1]) =
      .ok ⟨[⟨[97], some ⟨1, 2⟩, some ⟨3, 4⟩, false⟩,
            ⟨[97], some ⟨5, 6⟩, some ⟨7, 8⟩, true⟩]⟩ ∧
    (∀ r ∈ (⟨[⟨[97], some ⟨1, 2⟩, some ⟨3, 4⟩, false⟩,
              ⟨[97], some ⟨5, 6⟩, some ⟨7, 8⟩, true⟩]⟩ : PbWindows).windows,
      r.position.isSome ∧ r.size.isSome) ∧
    (∃ w : Windows,
      loadWindows
          ([10, 17, 10, 1, 97, 18, 4, 8, 1, 16, 2, 26, 4, 8, 3, 16, 4, 32, 0] ++
           [10, 17, 10, 1, 97, 18, 4, 8, 5, 16, 6, 26, 4, 8, 7, 16, 8, 32, 1]) =
        .ok w ∧
      (w.map Prod.fst).Nodup ∧
      ∀ name : ID, mapLookup w name =
        (((⟨[⟨[97], some ⟨1, 2⟩, some ⟨3, 4⟩, false⟩,
             ⟨[97], some ⟨5, 6⟩, some ⟨7, 8⟩, true⟩]⟩ : PbWindows).windows.filter
            (fun r => r.name == name)).getLast?.map recWindow)) :=
  ⟨by decide, by decide,
   C7_load_last_wins _ _ (by decide) (by decide)⟩

/-- C8: a write error is wrapped and surfaced; a short write of n of len
bytes is reported as `shortWrite n len`; `Geometry.Store` wraps an open
failure and any `Windows.Store` failure, with no retry (the operation is
a single function application). -/
theorem C8_store_errors :
    (∀ (w : Windows) (wr : Writer) (n : Nat),
      wr.write (marshalPb (Windows.toPb w)) = (n, none) →
      n ≠ (marshalPb (Windows.toPb w)).length →
      Windows.store w wr =
        .error (.shortWrite n (marshalPb (Windows.toPb w)).length)) ∧
    (∀ (w : Windows) (wr : Writer) (n e : Nat),
      wr.write (marshalPb (Windows.toPb w)) = (n, some e) →
      Windows.store w wr = .error (.writeError e)) ∧
    (∀ (α : Type) (g : Geometry α) (e : Nat),
      Geometry.storeOp g (.error e) = .error (.cannotOpen e)) ∧
    (∀ (α : Type) (g : Geometry α) (f : Writer) (err : StoreError),
      Windows.store g.windows f = .error err →
      Geometry.storeOp g (.ok f) = .error (.cannotStore err)) := by
  refine ⟨?_, ?_, ?_, ?_⟩
  · intro w wr n hw hn
    simp only [Windows.store, hw]
    rw [if_pos hn]
  · intro w wr n e hw
    simp only [Windows.store, hw]
  · intro α g e
    rfl
  · intro α g f err h
    simp only [Geometry.storeOp, h]

/-- Witness for C8: a writer that reports 0 bytes written produces the
short-write error; a writer failing with code 7 is wrapped; open failure
and store failure are wrapped by `Geometry.Store`. -/
theorem C8_store_errors_witness :
    (Writer.mk (fun _ => (0, none))).write
        (marshalPb (Windows.toPb [([97], ⟨[97], 1, 2, 3, 4, false⟩)])) =
      (0, none) ∧
    0 ≠ (marshalPb (Windows.toPb [([97], ⟨[97], 1, 2, 3, 4, false⟩)])).length ∧
    Windows.store [([97], ⟨[97], 1, 2, 3, 4, false⟩)]
        (Writer.mk (fun _ => (0, none))) =
      .error (.shortWrite 0
        (marshalPb (Windows.toPb [([97], ⟨[97], 1, 2, 3, 4, false⟩)])).length) ∧
    Windows.store [] (Writer.mk (fun _ => (0, some 7))) =
      .error (.writeError 7) ∧
    Geometry.storeOp (NewGeometry Unit []) (.error 3) = .error (.cannotOpen 3) ∧
    Geometry.storeOp (NewGeometry Unit [])
        (.ok (Writer.mk (fun _ => (0, some 7)))) =
      .error (.cannotStore (.writeError 7)) :=
  ⟨rfl, by decide,
   C8_store_errors.1 [([97], ⟨[97], 1, 2, 3, 4, false⟩)]
     (Writer.mk (fun _ => (0, none))) 0 rfl (by decide),
   C8_store_errors.2.1 [] (Writer.mk (fun _ => (0, some 7))) 0 7 rfl,
   C8_store_errors.2.2.1 Unit (NewGeometry Unit []) 3,
   C8_store_errors.2.2.2 Unit (NewGeometry Unit [])
     (Writer.mk (fun _ => (0, some 7))) (.writeError 7)
     (C8_store_errors.2.1 [] (Writer.mk (fun _ => (0, some 7))) 0 7 rfl)⟩

/-- C9: the payload `[10,5,10,1,97,32,0]` — the valid encoding of
`Windows{windows:[Window{name:"a", maximized:false}]}` with no position
or size submessage — is accepted by `proto.Unmarshal`, and `LoadWindows`
then dereferences the nil `Position` pointer instead of returning an
error: decoding is not total over well-formed protobuf inputs. -/
theorem C9_load_nil_deref :
    unmarshal [10, 5, 10, 1, 97, 32, 0] = .ok ⟨[⟨[97], none, none, false⟩]⟩ ∧
    loadWindows [10, 5, 10, 1, 97, 32, 0] = .nilDeref :=
  ⟨by decide, by decide⟩

/-- C10: `Windows.Get`, `Geometry.Add`, `LoadWindows` and
`Geometry.Restore` all preserve the invariant that each windows-map
entry's key equals its record's ID field (`LoadWindows` establishes it
outright). -/
theorem C10_id_invariant :
    (∀ (w : Windows) (id : ID), WindowsWF w → WindowsWF (Windows.get w id).2) ∧
    (∀ (α : Type) [Applyable α] [Observable α] (g : Geometry α) (id : ID) (c : α),
      WindowsWF g.windows → WindowsWF ((Geometry.add g id c).1).windows) ∧
    (∀ (buffer : List Nat) (w : Windows),
      loadWindows buffer = .ok w → WindowsWF w) ∧
    (∀ (α : Type) [Applyable α] (g : Geometry α)
        (file : Except Nat (List Nat)) (g' : Geometry α),
      WindowsWF g.windows → Geometry.restore g file = .ok g' →
      WindowsWF g'.windows) := by
  refine ⟨?_, ?_, ?_, ?_⟩
  · intro w id hw
    unfold Windows.get
    cases hl : mapLookup w id with
    | some g => exact hw
    | none => exact WindowsWF_mapInsert w id _ hw rfl
  · intro α instA instO g id c hg
    cases hl : mapLookup g.windows id with
    | some win =>
      rw [add_existing g id c win hl]
      exact hg
    | none =>
      rw [add_fresh g id c hl]
      exact WindowsWF_mapInsert g.windows id _ hg rfl
  · exact loadWindows_WF
  · intro α instA g file g' hg hr
    cases file with
    | error e =>
      rw [restore_errFile] at hr
      simp at hr
    | ok buffer =>
      rw [restore_okFile] at hr
      cases hlw : loadWindows buffer with
      | err e => rw [hlw] at hr; simp at hr
      | nilDeref => rw [hlw] at hr; simp at hr
      | ok loaded =>
        rw [hlw] at hr
        simp only [RestoreResult.ok.injEq] at hr
        subst hr
        exact restoreLoop_windows_WF loaded g hg (loadWindows_WF buffer loaded hlw)

/-- Witness for C10: the invariant holds of the map `Get` extends from
empty, and of the map loaded from the empty payload. -/
theorem C10_id_invariant_witness :
    WindowsWF ([] : Windows) ∧
    WindowsWF (Windows.get [] [7]).2 ∧
    (loadWindows [] = .ok [] ∧ WindowsWF ([] : Windows)) :=
  ⟨by decide, C10_id_invariant.1 [] [7] (by decide),
   by decide, C10_id_invariant.2.2.1 [] [] (by decide)⟩

end Gmtry
